import Mathlib

/-!
Verification development for the hyperclaude coordination store
(src/hyperclaude/protocols.py, config.py, cli.py).

The store is a per-session filesystem namespace.  We embed it shallowly:
each sub-store (worker state files, trigger marker files, lock record
files) becomes explicit state threaded through Lean functions translated
from the Python source.  Filenames keyed by a worker id become
association lists keyed by `Nat`; file contents are modelled at the level
the Python code reads them (raw character lists for lock records, a small
JSON value type for worker-state records).
-/

namespace HyperClaude

/-! ### Python string primitives

Lock-record files are read with `read_text().strip().split("\n")`
(protocols.py line 342), so we model their contents as raw character
lists and give faithful translations of `str.strip` and `str.split`
on a one-character separator. -/

/-- Model of a Python string as its list of characters. -/
abbrev PyStr := List Char

/-- Characters stripped by Python `str.strip()` with no argument
(whitespace; we cover the ASCII whitespace characters, which are the
only ones this program ever writes). -/
def pySpace (c : Char) : Bool :=
  c = ' ' || c = '\t' || c = '\n' || c = '\r' || c = '\x0b' || c = '\x0c'

/-- Python `s.strip()`: remove leading and trailing whitespace. -/
def pyStrip (s : PyStr) : PyStr :=
  ((s.dropWhile pySpace).reverse.dropWhile pySpace).reverse

/-- Python `"\n".join(files)` (protocols.py line 355): the contents
written to a worker lock file. -/
def joinNl (fs : List PyStr) : PyStr :=
  List.intercalate ['\n'] fs

/-- Python `content.strip().split("\n")` (protocols.py line 342): the
claimed-file list parsed back out of a lock record.  `str.split` on a
one-character separator never collapses adjacent separators, exactly
like `List.splitOn`.  The Python code wraps the result in `set(...)`
and only tests membership, so the list with `∈` is a faithful model. -/
def lockedFilesOf (content : PyStr) : List PyStr :=
  (pyStrip content).splitOn '\n'

/-- A path the lock store can round-trip: nonempty, free of newlines,
and not starting or ending in whitespace (so that `strip` of the joined
file leaves it intact).  `validate_lock_paths` (config.py lines 53-62)
rejects newlines; ordinary relative paths satisfy all of this. -/
def cleanPath (f : PyStr) : Bool :=
  !f.isEmpty && f.all (· ≠ '\n') && !pySpace f.headI && !pySpace f.reverse.headI

/-! ### Association-list helper

Writing the file named by a worker id replaces any previous file of
that name and creates it otherwise; reading returns the current
contents.  `assocSet` is that write on an association list. -/

/-- Overwrite-or-create the entry for key `w`, as writing the file
named by `w` does on a directory. -/
def assocSet {α β : Type} [BEq α] (recs : List (α × β)) (w : α) (c : β) : List (α × β) :=
  bif recs.any (fun e => e.1 == w) then
    recs.map (fun e => bif e.1 == w then (w, c) else e)
  else
    recs ++ [(w, c)]

/-! ### Lock store (protocols.py lines 308-397)

The locks directory holds one `worker-id.lock` file per claiming worker
(newline-separated path list) plus the content-free `.master.lock`.
We model the directory as an association list from worker id to raw
file contents; `.master.lock` carries no content and is represented
separately where concurrency is modelled.  A lock file stem
`worker-id` determines and is determined by the id, so conflict owners
are reported as the `Nat` id. -/

/-- Directory of worker lock records: worker id to raw file contents. -/
abbrev LockRecords := List (Nat × PyStr)

/-- Conflict scan of `acquire_file_locks` (protocols.py lines 337-348):
walk every `worker-*.lock` record, skip the caller's own, and for each
requested file found in another record append an (owner, file) pair.
The glob enumeration order is filesystem-dependent; the association
list order stands in for it. -/
def conflictsFor (w : Nat) (files : List PyStr) (recs : LockRecords) :
    List (Nat × PyStr) :=
  recs.foldl
    (fun acc e =>
      bif e.1 == w then acc
      else acc ++ (files.filter (fun f => decide (f ∈ lockedFilesOf e.2))).map
        (fun f => (e.1, f)))
    []

/-- Model of `acquire_file_locks` (protocols.py lines 308-360), the body
executed while `.master.lock` is flocked: scan for conflicts; on any
conflict return them and write nothing; otherwise overwrite the
caller's own record with the newline-joined request. -/
def acquire_file_locks (w : Nat) (files : List PyStr) (recs : LockRecords) :
    (Bool × List (Nat × PyStr)) × LockRecords :=
  match conflictsFor w files recs with
  | [] => ((true, []), assocSet recs w (joinNl files))
  | c :: cs => ((false, c :: cs), recs)

/-- Model of `release_file_locks` (protocols.py lines 363-378): delete
the caller's record, reporting whether one existed. -/
def release_file_locks (w : Nat) (recs : LockRecords) : Bool × LockRecords :=
  bif recs.any (fun e => e.1 == w) then
    (true, recs.filter (fun e => !(e.1 == w)))
  else
    (false, recs)

/-- Existence of a conflict for a request: some other worker's record
claims one of the requested files.  This is the condition the scan of
`acquire_file_locks` detects. -/
def HasConflict (w : Nat) (files : List PyStr) (recs : LockRecords) : Prop :=
  ∃ e ∈ recs, e.1 ≠ w ∧ ∃ f ∈ files, f ∈ lockedFilesOf e.2

instance (w : Nat) (files : List PyStr) (recs : LockRecords) :
    Decidable (HasConflict w files recs) := by
  unfold HasConflict; infer_instance

/-! ### The `lock` CLI subcommand, step by step (cli.py lines 692-737)

The subcommand re-implements the conflict scan and the record write of
`acquire_file_locks` but never touches `.master.lock`: there is no
`fcntl.flock` call anywhere in its body.  Its glob is the wider
`*.lock` rather than `worker-*.lock`, but since nothing in the
repository calls `acquire_file_locks`, the locks directory of a session
driven through the CLI holds only `worker-*.lock` files, and on those
the scan coincides with `conflictsFor`.  To reason about two concurrent
invocations we split one invocation into its two accesses of shared
state: the scan (a read of every other record) and the commit (the
record write, or the failure return).  Coarsening the scan to one
atomic read only removes interleavings, so any race exhibited here
exists in the finer real execution. -/

/-- Program counter of one `lock` subcommand invocation. -/
inductive CliLockPc
  | start
  | scanned (conflicts : List (Nat × PyStr))
  | finished (ok : Bool)
deriving DecidableEq

/-- One in-flight `lock` subcommand invocation. -/
structure CliLockProc where
  worker : Nat
  files : List PyStr
  pc : CliLockPc
deriving DecidableEq

/-- One atomic step of a `lock` subcommand invocation against the shared
locks directory (cli.py lines 719-737): first the scan of the other
workers' records, then either the failure return (conflicts found,
nothing written) or the write of the caller's own record. -/
def cliLockStep (p : CliLockProc) (recs : LockRecords) : CliLockProc × LockRecords :=
  match p.pc with
  | .start => ({ p with pc := .scanned (conflictsFor p.worker p.files recs) }, recs)
  | .scanned [] => ({ p with pc := .finished true }, assocSet recs p.worker (joinNl p.files))
  | .scanned (_ :: _) => ({ p with pc := .finished false }, recs)
  | .finished _ => (p, recs)

/-- Two concurrent `lock` subcommand invocations over one session's
locks directory. -/
structure CliLockSys where
  recs : LockRecords
  proc1 : CliLockProc
  proc2 : CliLockProc
deriving DecidableEq

/-- Scheduler step: the chosen invocation takes its next atomic step. -/
def cliLockSchedStep (s : CliLockSys) (first : Bool) : CliLockSys :=
  if first then
    let (p, r) := cliLockStep s.proc1 s.recs
    { s with proc1 := p, recs := r }
  else
    let (p, r) := cliLockStep s.proc2 s.recs
    { s with proc2 := p, recs := r }

/-- Run a schedule (each entry names the invocation that steps next). -/
def cliLockRun (s : CliLockSys) (sched : List Bool) : CliLockSys :=
  sched.foldl cliLockSchedStep s

/-! ### Trigger store (protocols.py lines 200-270)

A trigger is a zero-byte marker file in the session's triggers
directory; existence is the whole payload.  The directory is a finite
set of names, modelled as a duplicate-free list of strings (we never
rely on the order). -/

/-- Model of `create_trigger` (protocols.py lines 200-205): `touch` the
marker, idempotently. -/
def create_trigger (name : String) (ts : List String) : List String :=
  if name ∈ ts then ts else ts ++ [name]

/-- Model of `trigger_exists` (protocols.py lines 208-211). -/
def trigger_exists (name : String) (ts : List String) : Bool :=
  name ∈ ts

/-- Model of `clear_trigger` (protocols.py lines 214-221): unlink the
marker if present; a vanished file is already success. -/
def clear_trigger (name : String) (ts : List String) : List String :=
  ts.filter (fun t => t ≠ name)

/-- Model of `clear_all_triggers` (protocols.py lines 237-247): unlink
every marker file in the directory. -/
def clear_all_triggers (_ts : List String) : List String :=
  []

/-- Trigger name `worker-i-done` as formatted by the f-strings in
protocols.py line 263 and cli.py line 684. -/
def workerDoneName (i : Nat) : String :=
  "worker-" ++ toString i ++ "-done"

/-- Session-level view the trigger barrier needs: the worker count from
the session metadata (`num_workers`, protocols.py line 256) and the
triggers directory. -/
structure TrigStore where
  numWorkers : Nat
  triggers : List String
deriving DecidableEq

/-- Model of `check_all_workers_done` (protocols.py lines 250-270):
test `worker-i-done` for every i below the worker count (the Python
loop breaks at the first miss; `List.all` computes the same value),
create `all-done` exactly if all are present, and return that verdict. -/
def check_all_workers_done (st : TrigStore) : Bool × TrigStore :=
  let all_done := (List.range st.numWorkers).all
    (fun i => trigger_exists (workerDoneName i) st.triggers)
  bif all_done then
    (true, ⟨st.numWorkers, create_trigger "all-done" st.triggers⟩)
  else
    (false, st)

/-- Operations that touch the triggers directory, for stating what a
sequence of store calls can do to a trigger (awaiting only reads, so it
is omitted; worker-state and lock calls never touch this directory). -/
inductive TrigOp
  | create (name : String)
  | clear (name : String)
  | clearAll
  | check
deriving DecidableEq

/-- Effect of one trigger-store operation. -/
def applyTrigOp (st : TrigStore) (op : TrigOp) : TrigStore :=
  match op with
  | .create n => ⟨st.numWorkers, create_trigger n st.triggers⟩
  | .clear n => ⟨st.numWorkers, clear_trigger n st.triggers⟩
  | .clearAll => ⟨st.numWorkers, clear_all_triggers st.triggers⟩
  | .check => (check_all_workers_done st).2

/-- Run a sequence of trigger-store operations. -/
def runTrigOps (st : TrigStore) (ops : List TrigOp) : TrigStore :=
  ops.foldl applyTrigOp st

/-! ### Worker state store (protocols.py lines 127-194)

A worker-state record is one JSON object per worker in
`state/workers/id.json`.  The program only ever writes objects whose
values are strings or lists of strings (status, assignment, result,
error, branch, files), so we model a parsed record as an
insertion-ordered association list over that value type — Python dict
semantics.  A file's raw text either parses (`valid o`, standing for
text that `json.loads` parses to the object `o`) or raises
`JSONDecodeError` (`invalid`, carrying the unparsable text). -/

/-- JSON values this program stores in worker-state records. -/
inductive JVal
  | str (s : String)
  | list (l : List String)
deriving DecidableEq

/-- A parsed worker-state record: a Python dict in insertion order. -/
abbrev Obj := List (String × JVal)

/-- Raw contents of a worker-state file, at the granularity
`get_worker_state` observes: parsable to an object, or not. -/
inductive RawContent
  | invalid (text : String)
  | valid (o : Obj)
deriving DecidableEq

/-- Directory of worker-state files: worker id to raw contents. -/
abbrev WSRecords := List (Nat × RawContent)

/-- Python `d[k] = v` on an insertion-ordered dict: overwrite in place
if the key exists, append otherwise. -/
def dictSet (d : Obj) (k : String) (v : JVal) : Obj :=
  bif d.any (fun e => e.1 == k) then
    d.map (fun e => bif e.1 == k then (k, v) else e)
  else
    d ++ [(k, v)]

/-- Python `d.update(kvs)`: fold `dictSet` over the updates in order. -/
def dictUpdate (d : Obj) (kvs : Obj) : Obj :=
  kvs.foldl (fun acc e => dictSet acc e.1 e.2) d

/-- Model of `get_worker_state` (protocols.py lines 132-140): read and
parse the record file; when the file is absent or `json.loads` raises
`JSONDecodeError`, fall back to the status-ready record. -/
def get_worker_state (w : Nat) (recs : WSRecords) : Obj :=
  match recs.lookup w with
  | some (RawContent.valid o) => o
  | some (RawContent.invalid _) => [("status", JVal.str "ready")]
  | none => [("status", JVal.str "ready")]

/-- Model of `set_worker_state` (protocols.py lines 143-164): start from
the status-ready record when `reset` is true, otherwise from the current
record; apply the keyword fields dict-update style; write the result
back as the worker's record file. -/
def set_worker_state (w : Nat) (reset : Bool) (kwargs : Obj) (recs : WSRecords) :
    WSRecords :=
  let base := bif reset then [("status", JVal.str "ready")] else get_worker_state w recs
  assocSet recs w (RawContent.valid (dictUpdate base kwargs))

/-- Model of `clear_worker_states` (protocols.py lines 184-193): unlink
every record file. -/
def clear_worker_states (_recs : WSRecords) : WSRecords :=
  []

/-- Record objects have a status field when some entry is keyed
"status". -/
def hasStatus (o : Obj) : Bool :=
  o.any (fun e => e.1 == "status")

/-- Worker-state directories reachable through this module's writers:
the empty directory, a `set_worker_state` write, a partially-written
(unparsable) file left by a killed process, and `clear_worker_states`.
Every parsable record in such a directory was produced by
`set_worker_state`. -/
inductive ReachableWS : WSRecords → Prop
  | empty : ReachableWS []
  | set (w : Nat) (reset : Bool) (kwargs : Obj) (recs : WSRecords) :
      ReachableWS recs → ReachableWS (set_worker_state w reset kwargs recs)
  | corrupt (w : Nat) (s : String) (recs : WSRecords) :
      ReachableWS recs → ReachableWS (assocSet recs w (RawContent.invalid s))
  | clear (recs : WSRecords) :
      ReachableWS recs → ReachableWS (clear_worker_states recs)

/-! ### Session registry (config.py lines 25-32 and 108-226)

The registry is the `sessions/` directory (one subdirectory per
session, holding a `session.json` metadata file) plus the
`active_session` pointer file. -/

/-- One character of the session-name grammar `[a-zA-Z0-9_-]`
(config.py line 18); `Char.isAlpha` and `Char.isDigit` are the ASCII
classes, matching the regex. -/
def sessionNameChar (c : Char) : Bool :=
  c.isAlpha || c.isDigit || c = '_' || c = '-'

/-- Full anchored match of `[a-zA-Z0-9_-]` repeated 1 to 64 times. -/
def sessionNameCore (s : List Char) : Bool :=
  1 ≤ s.length && s.length ≤ 64 && s.all sessionNameChar

/-- Model of `VALID_SESSION_NAME.match(name)` for the anchored pattern
of config.py line 18.  Python's `$` also matches just before one
trailing newline, so a name consisting of a matching core plus a final
newline passes the regex as well. -/
def VALID_SESSION_NAME_match (s : String) : Bool :=
  sessionNameCore s.data ||
    (s.data.getLast? == some '\n' && sessionNameCore s.data.dropLast)

/-- Model of `validate_session_name` (config.py lines 25-32): return
the name unchanged when the regex matches, raise `ValueError`
otherwise.  No code in the repository calls it. -/
def validate_session_name (name : String) : Except String String :=
  if VALID_SESSION_NAME_match name then
    Except.ok name
  else
    Except.error ("Invalid session name " ++ name)

/-- Whether a modelled Python call raised. -/
def exceptIsError {ε α : Type} (e : Except ε α) : Bool :=
  match e with
  | Except.error _ => true
  | Except.ok _ => false

/-- Metadata persisted by `register_session` (config.py lines 142-148). -/
structure SessionMeta where
  name : String
  workspace : String
  num_workers : Nat
  tmux_session : String
  tmux_window : String
deriving DecidableEq

/-- State the registry operations touch: the set of session directories
that exist, each session's metadata file, and the active pointer. -/
structure ConfigStore where
  sessionDirs : List String
  sessions : List (String × SessionMeta)
  active : Option String
deriving DecidableEq

/-- Model of `ensure_session_directories` (config.py lines 118-134):
create the session's directory tree on demand. -/
def ensure_session_directories (name : String) (cs : ConfigStore) : ConfigStore :=
  { cs with sessionDirs :=
      if name ∈ cs.sessionDirs then cs.sessionDirs else cs.sessionDirs ++ [name] }

/-- Model of `set_active_session` (config.py lines 212-216). -/
def set_active_session (name : String) (cs : ConfigStore) : ConfigStore :=
  { cs with active := some name }

/-- Model of `register_session` (config.py lines 137-153): create the
directories, write `session.json`, set the session active.  The body
contains no call to `validate_session_name` and no other check of the
name, so the function is total and always writes. -/
def register_session (name : String) (workspace : String) (num_workers : Nat)
    (cs : ConfigStore) : ConfigStore :=
  let cs1 := ensure_session_directories name cs
  let meta : SessionMeta := ⟨name, workspace, num_workers, name, "main"⟩
  let cs2 := { cs1 with sessions := assocSet cs1.sessions name meta }
  set_active_session name cs2

/-! ### The `send` and `done` subcommands (cli.py lines 339-439 and 621-690)

We model the slice of each command that touches the stores the claims
speak about: worker-state records, result files, and triggers.  The
protocol and phase values `send` interpolates into the worker preamble
are resolved from files we do not model here, so they enter as
parameters; the tmux delivery itself is out of scope, but the message
length validation it performs first (launcher.py line 212) is kept,
because it raises after the state writes have already happened. -/

/-- Python `s.strip()` on a string. -/
def pyStripStr (s : String) : String :=
  ⟨pyStrip s.data⟩

/-- Python emptiness (falsiness) of a string: no characters. -/
def strEmpty (s : String) : Bool :=
  s.data.isEmpty

/-- Limit from config.py line 17. -/
def MAX_MESSAGE_LENGTH : Nat := 100000

/-- Truthiness of an optional string argument, as Python tests it. -/
def optTruthy (o : Option String) : Bool :=
  match o with
  | none => false
  | some s => !strEmpty s

/-- Python `a or b` on optional strings. -/
def pyOrS (a b : Option String) : Option String :=
  bif optTruthy a then a else b

/-- Session-scoped state the `send` and `done` commands mutate. -/
structure Session where
  numWorkers : Nat
  triggers : List String
  workers : WSRecords
  results : List (Nat × String)
deriving DecidableEq

/-- How a modelled command invocation ends. -/
inductive CmdOutcome
  | invalidWorker
  | emptyMessage
  | messageTooLong
  | ok
deriving DecidableEq

/-- Model of `_build_worker_preamble` (cli.py lines 332-336). -/
def build_worker_preamble (worker_id : Nat) (protocol : String) (phase : String)
    (task : String) : String :=
  "[Task for Worker " ++ toString worker_id ++ "] " ++ protocol ++ " | " ++ phase
    ++ "\n\n" ++ task

/-- Model of the worker path of the `send` command (cli.py lines
378-420): reject an out-of-range id, then an empty message, with no
state change; otherwise clear the worker's stale done trigger, merge
status working and the assignment onto its state record (cli.py line
414 passes no reset flag, so `set_worker_state` defaults to a merge),
and hand the preamble to tmux, whose `validate_message_length` raises
only after those writes. -/
def sendCmd (worker_id : Int) (message : String) (proto : String) (phase : String)
    (st : Session) : CmdOutcome × Session :=
  bif decide (worker_id < 0) || decide ((st.numWorkers : Int) ≤ worker_id) then
    (CmdOutcome.invalidWorker, st)
  else bif strEmpty (pyStripStr message) then
    (CmdOutcome.emptyMessage, st)
  else
    let wid := worker_id.toNat
    let ts := clear_trigger (workerDoneName wid) st.triggers
    let ws := set_worker_state wid false
      [("status", JVal.str "working"), ("assignment", JVal.str message)] st.workers
    let st1 := { st with triggers := ts, workers := ws }
    let preamble := build_worker_preamble wid proto phase message
    bif decide (MAX_MESSAGE_LENGTH < preamble.length) then
      (CmdOutcome.messageTooLong, st1)
    else
      (CmdOutcome.ok, st1)

/-- State update dict built by `done` (cli.py lines 660-668), in the
insertion order of the Python code: status always, then branch, files,
error, result when their options are truthy. -/
def doneUpdate (done_status : String) (branch : Option String) (files : List String)
    (error_msg : Option String) (result : Option String) : Obj :=
  [("status", JVal.str done_status)]
    ++ (bif optTruthy branch then [("branch", JVal.str (branch.getD ""))] else [])
    ++ (bif !files.isEmpty then [("files", JVal.list files)] else [])
    ++ (bif optTruthy error_msg then [("error", JVal.str (error_msg.getD ""))] else [])
    ++ (bif optTruthy result then [("result", JVal.str (result.getD ""))] else [])

/-- Text of the compatibility result file written by `done` (cli.py
lines 676-680). -/
def resultFileContent (done_status : String) (result : Option String)
    (error_msg : Option String) (branch : Option String) (files : List String) :
    String :=
  "STATUS: " ++ done_status.toUpper
    ++ "\nRESULT: " ++ ((pyOrS (pyOrS result error_msg) (some "Task completed")).getD "")
    ++ "\nBRANCH: " ++ ((pyOrS branch (some "N/A")).getD "")
    ++ "\nFILES: " ++ (bif !files.isEmpty then String.intercalate ", " files else "N/A")
    ++ "\n"

/-- Model of the `done` command (cli.py lines 629-689) for a
nonnegative worker id (the CLI accepts any integer; negative ids take
the same unvalidated path).  A missing id is rejected with no write;
any supplied id — the body contains no range check against the session
worker count — has its state record merged, its result file written,
and its done trigger created, after which the all-done barrier is
recomputed. -/
def doneCmd (worker : Option Nat) (branch : Option String) (files : List String)
    (error_msg : Option String) (result : Option String) (st : Session) :
    Bool × Session :=
  match worker with
  | none => (false, st)
  | some w =>
    let done_status := bif optTruthy error_msg then "error" else "complete"
    let ws := set_worker_state w false
      (doneUpdate done_status branch files error_msg result) st.workers
    let res := assocSet st.results w
      (resultFileContent done_status result error_msg branch files)
    let ts := create_trigger (workerDoneName w) st.triggers
    let checked := check_all_workers_done ⟨st.numWorkers, ts⟩
    (true, { st with workers := ws, results := res, triggers := checked.2.triggers })

/-! ## Supporting lemmas -/

theorem lookup_map_assoc_ne {α β : Type} [BEq α] [LawfulBEq α]
    (recs : List (α × β)) (w w' : α) (c : β) (hne : w' ≠ w) :
    (recs.map (fun e => bif e.1 == w then (w, c) else e)).lookup w' = recs.lookup w' := by
  have hw : (w' == w) = false := by simpa [beq_eq_false_iff_ne] using hne
  induction recs with
  | nil => simp
  | cons e t ih =>
    obtain ⟨k, b⟩ := e
    cases he : k == w with
    | true =>
      have he' : k = w := eq_of_beq he
      subst he'
      simp [List.lookup, he, hw, ih]
    | false =>
      simp only [List.map_cons, he, cond_false, List.lookup]
      cases hcase : w' == k <;> simp [hcase, ih]

theorem lookup_append_single_ne {α β : Type} [BEq α] [LawfulBEq α]
    (recs : List (α × β)) (w w' : α) (c : β) (hne : w' ≠ w) :
    (recs ++ [(w, c)]).lookup w' = recs.lookup w' := by
  have hw : (w' == w) = false := by simpa [beq_eq_false_iff_ne] using hne
  induction recs with
  | nil => simp [List.lookup, hw]
  | cons e t ih =>
    obtain ⟨k, b⟩ := e
    simp only [List.cons_append, List.lookup]
    cases hcase : w' == k <;> simp [hcase, ih]

theorem lookup_map_assoc_eq {α β : Type} [BEq α] [LawfulBEq α]
    (recs : List (α × β)) (w : α) (c : β)
    (h : recs.any (fun e => e.1 == w) = true) :
    (recs.map (fun e => bif e.1 == w then (w, c) else e)).lookup w = some c := by
  induction recs with
  | nil => simp at h
  | cons e t ih =>
    obtain ⟨k, b⟩ := e
    cases he : k == w with
    | true => simp [List.lookup, he]
    | false =>
      have ht : t.any (fun e => e.1 == w) = true := by
        simpa [he] using h
      have hw : (w == k) = false := by
        simp only [beq_eq_false_iff_ne] at he ⊢
        exact fun hc => he hc.symm
      simp [List.lookup, he, hw, ih ht]

theorem lookup_append_assoc_eq {α β : Type} [BEq α] [LawfulBEq α]
    (recs : List (α × β)) (w : α) (c : β)
    (h : recs.any (fun e => e.1 == w) = false) :
    (recs ++ [(w, c)]).lookup w = some c := by
  induction recs with
  | nil => simp [List.lookup]
  | cons e t ih =>
    obtain ⟨k, b⟩ := e
    have he : (k == w) = false := by
      by_contra hc
      simp [eq_true_of_ne_false hc] at h
    have ht : t.any (fun e => e.1 == w) = false := by
      simpa [he] using h
    have hw : (w == k) = false := by
      simp only [beq_eq_false_iff_ne] at he ⊢
      exact fun hc => he hc.symm
    simpa [List.cons_append, List.lookup, hw] using ih ht

theorem lookup_assocSet_self {α β : Type} [BEq α] [LawfulBEq α]
    (recs : List (α × β)) (w : α) (c : β) :
    (assocSet recs w c).lookup w = some c := by
  unfold assocSet
  cases h : recs.any (fun e => e.1 == w) with
  | true => simpa using lookup_map_assoc_eq recs w c h
  | false => simpa using lookup_append_assoc_eq recs w c h

theorem lookup_assocSet_ne {α β : Type} [BEq α] [LawfulBEq α]
    (recs : List (α × β)) (w w' : α) (c : β) (hne : w' ≠ w) :
    (assocSet recs w c).lookup w' = recs.lookup w' := by
  unfold assocSet
  cases h : recs.any (fun e => e.1 == w) with
  | true => simpa using lookup_map_assoc_ne recs w w' c hne
  | false => simpa using lookup_append_single_ne recs w w' c hne

theorem mem_assocSet {α β : Type} [BEq α] [LawfulBEq α]
    {recs : List (α × β)} {w : α} {c : β} {e : α × β}
    (h : e ∈ assocSet recs w c) : e = (w, c) ∨ (e ∈ recs ∧ e.1 ≠ w) := by
  unfold assocSet at h
  cases hany : recs.any (fun e => e.1 == w) with
  | true =>
    rw [hany, cond_true] at h
    rcases List.mem_map.mp h with ⟨a, ha, hfa⟩
    cases hk : a.1 == w with
    | true =>
      left
      rw [← hfa, hk, cond_true]
    | false =>
      right
      rw [← hfa, hk, cond_false]
      exact ⟨ha, by simpa [beq_eq_false_iff_ne] using hk⟩
  | false =>
    rw [hany, cond_false] at h
    rcases List.mem_append.mp h with h | h
    · right
      refine ⟨h, ?_⟩
      have := List.any_eq_false.mp hany e h
      simpa [beq_eq_false_iff_ne] using this
    · left
      simpa using h

theorem mem_create_trigger_of_mem {ts : List String} {t : String} (n : String)
    (h : t ∈ ts) : t ∈ create_trigger n ts := by
  unfold create_trigger
  by_cases hm : n ∈ ts
  · simpa [hm] using h
  · simp [hm, List.mem_append, h]

theorem mem_create_trigger_self (n : String) (ts : List String) :
    n ∈ create_trigger n ts := by
  unfold create_trigger
  by_cases hm : n ∈ ts
  · simp [hm]
  · simp [hm]

theorem mem_clear_trigger_of_ne {ts : List String} {t n : String}
    (h : t ∈ ts) (hne : t ≠ n) : t ∈ clear_trigger n ts := by
  unfold clear_trigger
  exact List.mem_filter.mpr ⟨h, by simpa using hne⟩

theorem check_preserves_triggers (st : TrigStore) (t : String)
    (h : t ∈ st.triggers) : t ∈ (check_all_workers_done st).2.triggers := by
  unfold check_all_workers_done
  cases hall : (List.range st.numWorkers).all
      (fun i => trigger_exists (workerDoneName i) st.triggers) with
  | false => simpa using h
  | true => simpa using mem_create_trigger_of_mem "all-done" h

theorem hasStatus_dictSet (d : Obj) (k : String) (v : JVal)
    (h : hasStatus d = true) : hasStatus (dictSet d k v) = true := by
  unfold dictSet
  cases hany : d.any (fun e => e.1 == k) with
  | false =>
    rw [cond_false]
    unfold hasStatus at h ⊢
    simp [List.any_append, h]
  | true =>
    rw [cond_true]
    unfold hasStatus at h ⊢
    rw [List.any_map]
    rcases List.any_eq_true.mp h with ⟨e, he, hs⟩
    refine List.any_eq_true.mpr ⟨e, he, ?_⟩
    simp only [Function.comp_apply]
    cases hk : e.1 == k with
    | false => rw [cond_false]; exact hs
    | true =>
      rw [cond_true]
      have h1 : e.1 = k := eq_of_beq hk
      show (k == "status") = true
      rw [← h1]
      exact hs

theorem hasStatus_dictUpdate (d : Obj) (kvs : Obj) (h : hasStatus d = true) :
    hasStatus (dictUpdate d kvs) = true := by
  induction kvs generalizing d with
  | nil => simpa [dictUpdate] using h
  | cons p t ih =>
    have hstep : dictUpdate d (p :: t) = dictUpdate (dictSet d p.1 p.2) t := by
      simp [dictUpdate]
    rw [hstep]
    exact ih _ (hasStatus_dictSet d p.1 p.2 h)

theorem statusInv_of_reachable {recs : WSRecords} (h : ReachableWS recs) :
    ∀ (w : Nat) (o : Obj), recs.lookup w = some (RawContent.valid o) →
      hasStatus o = true := by
  induction h with
  | empty =>
    intro w o hlk
    simp at hlk
  | set w reset kwargs recs hr ih =>
    intro w' o hlk
    simp only [set_worker_state] at hlk
    by_cases hw : w' = w
    · subst hw
      rw [lookup_assocSet_self] at hlk
      have hbase : hasStatus
          (bif reset then [("status", JVal.str "ready")]
           else get_worker_state w' recs) = true := by
        cases reset with
        | true => rw [cond_true]; rfl
        | false =>
          rw [cond_false]
          unfold get_worker_state
          cases hl : recs.lookup w' with
          | none => rfl
          | some rc =>
            cases rc with
            | invalid s => rfl
            | valid o2 => exact ih w' o2 hl
      have ho : o = dictUpdate
          (bif reset then [("status", JVal.str "ready")]
           else get_worker_state w' recs) kwargs := by
        have := Option.some.inj hlk
        cases this
        rfl
      rw [ho]
      exact hasStatus_dictUpdate _ kwargs hbase
    · rw [lookup_assocSet_ne _ _ _ _ hw] at hlk
      exact ih w' o hlk
  | corrupt w s recs hr ih =>
    intro w' o hlk
    by_cases hw : w' = w
    · subst hw
      rw [lookup_assocSet_self] at hlk
      exact absurd (Option.some.inj hlk) (by simp)
    · rw [lookup_assocSet_ne _ _ _ _ hw] at hlk
      exact ih w' o hlk
  | clear recs hr ih =>
    intro w' o hlk
    simp [clear_worker_states] at hlk

/-! ## Claim theorems -/

/-- Claim C1 (code bug): the `lock` CLI subcommand performs its conflict
scan and its lock-record write without acquiring any advisory lock on
the session's master-lock file (cli.py lines 715-737 contain no flock;
`acquire_file_locks`, the flocked implementation, is called from
nowhere).  Consequently two concurrent `lock` invocations for the same
path in one session can interleave as scan-1, scan-2, write-1, write-2:
both pass the conflict check and both write overlapping claims — the
outcome the claimed master-lock discipline is supposed to exclude. -/
theorem cli_lock_bypasses_master_lock_race :
    let aPath : PyStr := ['a', '.', 'p', 'y']
    let init : CliLockSys := ⟨[], ⟨1, [aPath], .start⟩, ⟨2, [aPath], .start⟩⟩
    let final := cliLockRun init [true, false, true, false]
    final.proc1.pc = .finished true ∧ final.proc2.pc = .finished true ∧
    aPath ∈ lockedFilesOf ((final.recs.lookup 1).getD []) ∧
    aPath ∈ lockedFilesOf ((final.recs.lookup 2).getD []) := by
  decide

/-- Claim C4 (code bug): `send` does not reset the worker's state record
before assigning a new task.  The call at cli.py line 414 passes no
reset flag, so `set_worker_state` defaults to a merge and the stale
result and branch fields of the prior task survive into the record of
the new task, contrary to the documented purpose of the reset flag
("start fresh for new tasks", protocols.py lines 149 and 155-157). -/
theorem send_carries_stale_fields_into_new_task :
    let st0 : Session := ⟨6, [],
      [(0, RawContent.valid [("status", JVal.str "complete"), ("result", JVal.str "r"),
        ("branch", JVal.str "b")])], []⟩
    let r := sendCmd 0 "new task" "default" "working" st0
    r.1 = CmdOutcome.ok ∧
    (get_worker_state 0 r.2.workers).lookup "result" = some (JVal.str "r") ∧
    (get_worker_state 0 r.2.workers).lookup "branch" = some (JVal.str "b") ∧
    (get_worker_state 0 r.2.workers).lookup "status" = some (JVal.str "working") ∧
    (get_worker_state 0 r.2.workers).lookup "assignment" = some (JVal.str "new task") := by
  decide

/-- Claim C5 (code bug): `register_session` (config.py lines 137-153)
never invokes `validate_session_name` — no code in the repository does —
so a name rejected by the session-name grammar is registered anyway:
the session directory is created, the metadata is persisted, and the
session becomes active, with no error.  Here the name holds a space,
which the grammar forbids. -/
theorem register_session_accepts_invalid_name :
    VALID_SESSION_NAME_match "bad name" = false ∧
    exceptIsError (validate_session_name "bad name") = true ∧
    (let cs := register_session "bad name" "/workspace" 3 ⟨[], [], none⟩
     cs.sessions.lookup "bad name" = some ⟨"bad name", "/workspace", 3, "bad name", "main"⟩ ∧
     "bad name" ∈ cs.sessionDirs ∧ cs.active = some "bad name") := by
  decide

/-- Claim C3 (confirmed): `check_all_workers_done` returns true exactly
when the `worker-i-done` trigger exists for every worker index below
the session's worker count; it adds the `all-done` trigger exactly on a
true verdict (so after the call `all-done` exists iff the verdict was
true or the trigger already existed), and a false verdict leaves the
trigger store completely unchanged. -/
theorem check_all_workers_done_barrier (st : TrigStore) :
    ((check_all_workers_done st).1 = true ↔
      ∀ i < st.numWorkers, workerDoneName i ∈ st.triggers) ∧
    ("all-done" ∈ (check_all_workers_done st).2.triggers ↔
      ((check_all_workers_done st).1 = true ∨ "all-done" ∈ st.triggers)) ∧
    ((check_all_workers_done st).1 = false → (check_all_workers_done st).2 = st) := by
  cases hall : (List.range st.numWorkers).all
      (fun i => trigger_exists (workerDoneName i) st.triggers) with
  | true =>
    have hmem : ∀ i < st.numWorkers, workerDoneName i ∈ st.triggers := by
      intro i hi
      have := List.all_eq_true.mp hall i (List.mem_range.mpr hi)
      simpa [trigger_exists] using this
    have hfst : (check_all_workers_done st).1 = true := by
      simp [check_all_workers_done, hall]
    have hsnd : (check_all_workers_done st).2.triggers
        = create_trigger "all-done" st.triggers := by
      simp [check_all_workers_done, hall]
    refine ⟨?_, ?_, ?_⟩
    · rw [hfst]
      exact ⟨fun _ => hmem, fun _ => rfl⟩
    · rw [hsnd, hfst]
      exact ⟨fun _ => Or.inl rfl, fun _ => mem_create_trigger_self "all-done" st.triggers⟩
    · intro h
      rw [hfst] at h
      exact absurd h (by simp)
  | false =>
    have hmiss : ¬ ∀ i < st.numWorkers, workerDoneName i ∈ st.triggers := by
      intro hcon
      rw [← Bool.not_eq_true] at hall
      apply hall
      refine List.all_eq_true.mpr fun i hi => ?_
      have := hcon i (List.mem_range.mp hi)
      simpa [trigger_exists] using this
    have hfst : (check_all_workers_done st).1 = false := by
      simp [check_all_workers_done, hall]
    have hsnd : (check_all_workers_done st).2 = st := by
      simp [check_all_workers_done, hall]
    refine ⟨?_, ?_, ?_⟩
    · rw [hfst]
      exact iff_of_false (by simp) hmiss
    · rw [hsnd, hfst]
      simp
    · intro _
      exact hsnd

/-- Witness for the barrier theorem at a worker count of 3 with all
three completion triggers present, and at a store where one is
missing. -/
theorem check_all_workers_done_barrier_witness :
    (check_all_workers_done ⟨3, [workerDoneName 0, workerDoneName 1, workerDoneName 2]⟩).1
      = true ∧
    "all-done" ∈
      (check_all_workers_done
        ⟨3, [workerDoneName 0, workerDoneName 1, workerDoneName 2]⟩).2.triggers ∧
    (check_all_workers_done ⟨3, [workerDoneName 0, workerDoneName 1]⟩).2
      = ⟨3, [workerDoneName 0, workerDoneName 1]⟩ := by
  refine ⟨?_, ?_, ?_⟩
  · exact (check_all_workers_done_barrier
      ⟨3, [workerDoneName 0, workerDoneName 1, workerDoneName 2]⟩).1.mpr (by decide)
  · exact (check_all_workers_done_barrier
      ⟨3, [workerDoneName 0, workerDoneName 1, workerDoneName 2]⟩).2.1.mpr
      (Or.inl (by decide))
  · exact (check_all_workers_done_barrier
      ⟨3, [workerDoneName 0, workerDoneName 1]⟩).2.2 (by decide)

/-- Claim C10 (confirmed): `check_all_workers_done` never removes a
trigger — every trigger present before a call is present after it — and
across any sequence of trigger-store operations that contains no
`clear_trigger` of `all-done` and no `clear_all_triggers`, an existing
`all-done` trigger persists, even through barrier calls that return
false because some `worker-i-done` was cleared in the meantime. -/
theorem all_done_persists_until_cleared :
    (∀ (st : TrigStore) (t : String), t ∈ st.triggers →
      t ∈ (check_all_workers_done st).2.triggers) ∧
    (∀ (st : TrigStore) (ops : List TrigOp),
      (∀ op ∈ ops, op ≠ TrigOp.clear "all-done" ∧ op ≠ TrigOp.clearAll) →
      "all-done" ∈ st.triggers →
      "all-done" ∈ (runTrigOps st ops).triggers) := by
  refine ⟨check_preserves_triggers, ?_⟩
  intro st ops
  induction ops generalizing st with
  | nil => intro _ h0; simpa [runTrigOps] using h0
  | cons op rest ih =>
    intro hops h0
    have hstep : "all-done" ∈ (applyTrigOp st op).triggers := by
      match op with
      | TrigOp.create n => exact mem_create_trigger_of_mem n h0
      | TrigOp.clear n =>
        have hne : n ≠ "all-done" := by
          intro hc
          exact ((hops (TrigOp.clear n) (by simp)).1 (by rw [hc]))
        exact mem_clear_trigger_of_ne h0 (fun hc => hne hc.symm)
      | TrigOp.clearAll =>
        exact absurd rfl (hops TrigOp.clearAll (by simp)).2
      | TrigOp.check => exact check_preserves_triggers st "all-done" h0
    have hrest : ∀ op2 ∈ rest, op2 ≠ TrigOp.clear "all-done" ∧ op2 ≠ TrigOp.clearAll :=
      fun op2 hm => hops op2 (by simp [hm])
    have := ih (applyTrigOp st op) hrest hstep
    simpa [runTrigOps] using this

/-- Witness for trigger persistence: `all-done` survives a barrier call
and a run that clears a worker trigger, recreates one, and re-checks. -/
theorem all_done_persists_until_cleared_witness :
    "all-done" ∈ (check_all_workers_done ⟨2, ["all-done"]⟩).2.triggers ∧
    "all-done" ∈ (runTrigOps ⟨2, ["all-done", workerDoneName 0, workerDoneName 1]⟩
      [TrigOp.clear (workerDoneName 0), TrigOp.check,
       TrigOp.create (workerDoneName 0), TrigOp.check]).triggers := by
  refine ⟨?_, ?_⟩
  · exact all_done_persists_until_cleared.1 ⟨2, ["all-done"]⟩ "all-done" (by decide)
  · exact all_done_persists_until_cleared.2
      ⟨2, ["all-done", workerDoneName 0, workerDoneName 1]⟩
      [TrigOp.clear (workerDoneName 0), TrigOp.check,
       TrigOp.create (workerDoneName 0), TrigOp.check]
      (by decide) (by decide)

/-- Claim C7 (confirmed): a reset write of status X followed by a read
yields exactly the one-field record with status X, for every worker id
and every prior store contents — nothing from any previously stored
record for that worker survives the reset. -/
theorem set_reset_then_get_exact (recs : WSRecords) (w : Nat) (X : JVal) :
    get_worker_state w (set_worker_state w true [("status", X)] recs)
      = [("status", X)] := by
  have hupd : dictUpdate [("status", JVal.str "ready")] [("status", X)]
      = [("status", X)] := rfl
  simp only [set_worker_state, cond_true, hupd]
  unfold get_worker_state
  rw [lookup_assocSet_self]

/-- Counterexample to claim C6 as stated: a record file whose stored
text is the empty JSON object parses successfully, so `get_worker_state`
returns it as-is — and it has no status field, although the claim
asserts the result always contains one. -/
theorem get_worker_state_parsable_without_status :
    get_worker_state 0 [(0, RawContent.valid [])] = [] ∧
    hasStatus (get_worker_state 0 [(0, RawContent.valid [])]) = false := by
  decide

/-- Claim C6 (amended): `get_worker_state` is total and returns exactly
the status-ready record when the file is absent or its text fails to
parse; a record that parses is returned as stored, so in general it
contains a status field only when the stored record does — which is the
case for every store reachable through this module's writers, because
`set_worker_state` always writes one. -/
theorem get_worker_state_total_defaults :
    (∀ (recs : WSRecords) (w : Nat), recs.lookup w = none →
      get_worker_state w recs = [("status", JVal.str "ready")]) ∧
    (∀ (recs : WSRecords) (w : Nat) (s : String),
      recs.lookup w = some (RawContent.invalid s) →
      get_worker_state w recs = [("status", JVal.str "ready")]) ∧
    (∀ (recs : WSRecords) (w : Nat) (o : Obj),
      recs.lookup w = some (RawContent.valid o) → get_worker_state w recs = o) ∧
    (∀ recs : WSRecords, ReachableWS recs →
      ∀ w : Nat, hasStatus (get_worker_state w recs) = true) := by
  refine ⟨?_, ?_, ?_, ?_⟩
  · intro recs w h
    unfold get_worker_state
    rw [h]
  · intro recs w s h
    unfold get_worker_state
    rw [h]
  · intro recs w o h
    unfold get_worker_state
    rw [h]
  · intro recs hr w
    unfold get_worker_state
    cases hl : recs.lookup w with
    | none => rfl
    | some rc =>
      cases rc with
      | invalid s => rfl
      | valid o => exact statusInv_of_reachable hr w o hl

/-- Witness for the amended C6 theorem: the defaults at an absent and a
corrupt record, the verbatim return of a parsable record, and the
status invariant at the empty reachable store. -/
theorem get_worker_state_total_defaults_witness :
    get_worker_state 0 [] = [("status", JVal.str "ready")] ∧
    get_worker_state 1 [(1, RawContent.invalid "oops")] = [("status", JVal.str "ready")] ∧
    get_worker_state 2 [(2, RawContent.valid [("status", JVal.str "working")])]
      = [("status", JVal.str "working")] ∧
    hasStatus (get_worker_state 0 []) = true := by
  refine ⟨?_, ?_, ?_, ?_⟩
  · exact get_worker_state_total_defaults.1 [] 0 (by decide)
  · exact get_worker_state_total_defaults.2.1 _ 1 "oops" (by decide)
  · exact get_worker_state_total_defaults.2.2.1 _ 2 _ (by decide)
  · exact get_worker_state_total_defaults.2.2.2 [] ReachableWS.empty 0


theorem mem_conflictsFor_aux (w : Nat) (files : List PyStr) (recs : LockRecords)
    (acc : List (Nat × PyStr)) (o : Nat) (f : PyStr) :
    (o, f) ∈ recs.foldl
      (fun acc e =>
        bif e.1 == w then acc
        else acc ++ (files.filter (fun f => decide (f ∈ lockedFilesOf e.2))).map
          (fun f => (e.1, f))) acc ↔
    (o, f) ∈ acc ∨ ∃ e ∈ recs, e.1 = o ∧ o ≠ w ∧ f ∈ files ∧ f ∈ lockedFilesOf e.2 := by
  induction recs generalizing acc with
  | nil => simp
  | cons e t ih =>
    rw [List.foldl_cons, ih]
    cases he : e.1 == w with
    | true =>
      have he2 : e.1 = w := eq_of_beq he
      rw [cond_true]
      constructor
      · rintro (h | ⟨e2, he3, h1, h2, h3, h4⟩)
        · exact Or.inl h
        · exact Or.inr ⟨e2, List.mem_cons_of_mem e he3, h1, h2, h3, h4⟩
      · rintro (h | ⟨e2, he3, h1, h2, h3, h4⟩)
        · exact Or.inl h
        · rcases List.mem_cons.mp he3 with rfl | hm
          · exact absurd (h1.symm.trans he2) h2
          · exact Or.inr ⟨e2, hm, h1, h2, h3, h4⟩
    | false =>
      have he2 : e.1 ≠ w := by simpa [beq_eq_false_iff_ne] using he
      rw [cond_false]
      rw [List.mem_append]
      have hmapmem : (o, f) ∈ (files.filter
            (fun f => decide (f ∈ lockedFilesOf e.2))).map (fun f => (e.1, f)) ↔
          (e.1 = o ∧ f ∈ files ∧ f ∈ lockedFilesOf e.2) := by
        constructor
        · intro hm
          rcases List.mem_map.mp hm with ⟨g, hg, hpair⟩
          rcases List.mem_filter.mp hg with ⟨hgf, hgl⟩
          have h1 : e.1 = o := congrArg Prod.fst hpair
          have h2 : g = f := congrArg Prod.snd hpair
          subst h2
          exact ⟨h1, hgf, of_decide_eq_true hgl⟩
        · rintro ⟨h1, h2, h3⟩
          exact List.mem_map.mpr
            ⟨f, List.mem_filter.mpr ⟨h2, decide_eq_true h3⟩, by rw [h1]⟩
      rw [hmapmem]
      constructor
      · rintro ((h | ⟨h1, h2, h3⟩) | ⟨e2, he3, h1, h2, h3, h4⟩)
        · exact Or.inl h
        · exact Or.inr ⟨e, List.mem_cons_self e t, h1, h1 ▸ he2, h2, h3⟩
        · exact Or.inr ⟨e2, List.mem_cons_of_mem e he3, h1, h2, h3, h4⟩
      · rintro (h | ⟨e2, he3, h1, h2, h3, h4⟩)
        · exact Or.inl (Or.inl h)
        · rcases List.mem_cons.mp he3 with rfl | hm
          · exact Or.inl (Or.inr ⟨h1, h3, h4⟩)
          · exact Or.inr ⟨e2, hm, h1, h2, h3, h4⟩

theorem mem_conflictsFor (w : Nat) (files : List PyStr) (recs : LockRecords)
    (o : Nat) (f : PyStr) :
    (o, f) ∈ conflictsFor w files recs ↔
      ∃ e ∈ recs, e.1 = o ∧ o ≠ w ∧ f ∈ files ∧ f ∈ lockedFilesOf e.2 := by
  have h := mem_conflictsFor_aux w files recs [] o f
  simpa [conflictsFor] using h

theorem conflictsFor_eq_nil_iff (w : Nat) (files : List PyStr) (recs : LockRecords) :
    conflictsFor w files recs = [] ↔ ¬ HasConflict w files recs := by
  rw [List.eq_nil_iff_forall_not_mem]
  unfold HasConflict
  constructor
  · rintro h ⟨e, he, hne, f, hf, hm⟩
    exact h (e.1, f) ((mem_conflictsFor w files recs e.1 f).mpr ⟨e, he, rfl, hne, hf, hm⟩)
  · rintro h ⟨o, f⟩ hmem
    rcases (mem_conflictsFor w files recs o f).mp hmem with ⟨e, he, heo, hno, hf, hm⟩
    exact h ⟨e, he, heo ▸ hno, f, hf, hm⟩

theorem acquire_ok_eq (w : Nat) (files : List PyStr) (recs : LockRecords)
    (h : ¬ HasConflict w files recs) :
    acquire_file_locks w files recs = ((true, []), assocSet recs w (joinNl files)) := by
  unfold acquire_file_locks
  rw [(conflictsFor_eq_nil_iff w files recs).mpr h]

theorem acquire_conflict_eq (w : Nat) (files : List PyStr) (recs : LockRecords)
    (h : HasConflict w files recs) :
    acquire_file_locks w files recs = ((false, conflictsFor w files recs), recs) := by
  unfold acquire_file_locks
  cases hc : conflictsFor w files recs with
  | nil => exact absurd ((conflictsFor_eq_nil_iff w files recs).mp hc) (not_not_intro h)
  | cons c cs => rfl

theorem acquire_ok_iff (w : Nat) (files : List PyStr) (recs : LockRecords) :
    (acquire_file_locks w files recs).1.1 = true ↔ ¬ HasConflict w files recs := by
  by_cases h : HasConflict w files recs
  · rw [acquire_conflict_eq w files recs h]
    exact iff_of_false (by simp) (not_not_intro h)
  · rw [acquire_ok_eq w files recs h]
    exact iff_of_true rfl h

theorem dropWhile_eq_self_of_head {p : Char → Bool} {l : PyStr} (hl : l ≠ [])
    (hh : p l.headI = false) : l.dropWhile p = l := by
  cases l with
  | nil => simp
  | cons a t =>
    have ha : p a = false := hh
    simp [List.dropWhile_cons, ha]

theorem pyStrip_eq_self {l : PyStr} (hl : l ≠ []) (h1 : pySpace l.headI = false)
    (h2 : pySpace l.reverse.headI = false) : pyStrip l = l := by
  unfold pyStrip
  rw [dropWhile_eq_self_of_head hl h1]
  rw [dropWhile_eq_self_of_head (by simpa using hl) h2]
  exact List.reverse_reverse l

theorem joinNl_singleton (f : PyStr) : joinNl [f] = f := by
  simp [joinNl, List.intercalate]

theorem joinNl_cons_cons (a b : PyStr) (t : List PyStr) :
    joinNl (a :: b :: t) = a ++ '\n' :: joinNl (b :: t) := by
  simp [joinNl, List.intercalate, List.intersperse_cons_cons]

theorem joinNl_ne_nil {fs : List PyStr} (hne : fs ≠ []) (h : ∀ f ∈ fs, f ≠ []) :
    joinNl fs ≠ [] := by
  cases fs with
  | nil => contradiction
  | cons f t =>
    cases t with
    | nil =>
      rw [joinNl_singleton]
      exact h f (by simp)
    | cons b t2 =>
      rw [joinNl_cons_cons]
      simp

theorem headI_joinNl {f : PyStr} (t : List PyStr) (hf : f ≠ []) :
    (joinNl (f :: t)).headI = f.headI := by
  cases t with
  | nil => rw [joinNl_singleton]
  | cons b t2 =>
    rw [joinNl_cons_cons]
    cases f with
    | nil => contradiction
    | cons c cs => simp

theorem joinNl_append_single (l : List PyStr) (x : PyStr) (hl : l ≠ []) :
    joinNl (l ++ [x]) = joinNl l ++ '\n' :: x := by
  induction l with
  | nil => contradiction
  | cons a t ih =>
    cases t with
    | nil =>
      have h1 : ([a] ++ [x]) = a :: x :: [] := rfl
      rw [h1, joinNl_cons_cons, joinNl_singleton, joinNl_singleton]
    | cons b t2 =>
      have h1 : ((a :: b :: t2) ++ [x]) = a :: b :: (t2 ++ [x]) := by simp
      rw [h1, joinNl_cons_cons]
      have h2 : b :: (t2 ++ [x]) = (b :: t2) ++ [x] := by simp
      rw [h2, ih (by simp), joinNl_cons_cons]
      simp

theorem reverse_joinNl (fs : List PyStr) :
    (joinNl fs).reverse = joinNl ((fs.map List.reverse).reverse) := by
  induction fs with
  | nil => rfl
  | cons f t ih =>
    cases t with
    | nil => simp [joinNl_singleton]
    | cons b t2 =>
      rw [joinNl_cons_cons, List.reverse_append, List.reverse_cons, ih]
      have h1 : ((f :: b :: t2).map List.reverse).reverse
          = ((b :: t2).map List.reverse).reverse ++ [f.reverse] := by simp
      rw [h1, joinNl_append_single _ _ (by simp)]
      simp

theorem cleanPath_spec {f : PyStr} (h : cleanPath f = true) :
    f ≠ [] ∧ ('\n' ∉ f) ∧ pySpace f.headI = false ∧ pySpace f.reverse.headI = false := by
  unfold cleanPath at h
  simp only [Bool.and_eq_true, Bool.not_eq_true'] at h
  obtain ⟨⟨⟨h1, h2⟩, h3⟩, h4⟩ := h
  refine ⟨?_, ?_, h3, h4⟩
  · intro hc
    subst hc
    simp at h1
  · intro hc
    have := List.all_eq_true.mp h2 '\n' hc
    simp at this

theorem pyStrip_joinNl (fs : List PyStr) (hne : fs ≠ [])
    (hclean : ∀ f ∈ fs, cleanPath f = true) : pyStrip (joinNl fs) = joinNl fs := by
  have hnonempty : ∀ f ∈ fs, f ≠ [] := fun f hf => (cleanPath_spec (hclean f hf)).1
  apply pyStrip_eq_self (joinNl_ne_nil hne hnonempty)
  · cases fs with
    | nil => exact absurd rfl hne
    | cons f t =>
      rw [headI_joinNl t ((cleanPath_spec (hclean f (by simp))).1)]
      exact (cleanPath_spec (hclean f (by simp))).2.2.1
  · rw [reverse_joinNl]
    rcases List.eq_nil_or_concat fs with rfl | ⟨L, b, hfs⟩
    · exact absurd rfl hne
    · rw [List.concat_eq_append] at hfs
      subst hfs
      have hb : cleanPath b = true := hclean b (by simp)
      have h1 : ((L ++ [b]).map List.reverse).reverse
          = b.reverse :: (L.map List.reverse).reverse := by simp
      rw [h1, headI_joinNl _ (by simpa using (cleanPath_spec hb).1)]
      exact (cleanPath_spec hb).2.2.2

theorem lockedFilesOf_joinNl (fs : List PyStr) (hne : fs ≠ [])
    (hclean : ∀ f ∈ fs, cleanPath f = true) : lockedFilesOf (joinNl fs) = fs := by
  unfold lockedFilesOf
  rw [pyStrip_joinNl fs hne hclean]
  have hnl : ∀ l ∈ fs, '\n' ∉ l := fun l hl => (cleanPath_spec (hclean l hl)).2.1
  simpa [joinNl] using List.splitOn_intercalate fs '\n' hnl hne


/-- Claim C2 (confirmed): when some requested path appears in another
worker's lock record, `acquire_file_locks` returns failure together
with the complete conflict list — a pair (owner, path) is reported
exactly when that owner is a different worker whose record claims that
requested path, so the caller's own prior record never produces a
conflict — and the lock directory is left completely unchanged; and
when no other worker's record claims any requested path (in particular
when the paths appear only in the caller's own prior record), the
acquisition succeeds. -/
theorem acquire_conflicts_exact (recs : LockRecords) (w : Nat) (files : List PyStr) :
    (HasConflict w files recs →
      (acquire_file_locks w files recs).1.1 = false ∧
      (acquire_file_locks w files recs).2 = recs ∧
      (∀ (o : Nat) (f : PyStr), (o, f) ∈ (acquire_file_locks w files recs).1.2 ↔
        ∃ e ∈ recs, e.1 = o ∧ o ≠ w ∧ f ∈ files ∧ f ∈ lockedFilesOf e.2)) ∧
    (¬ HasConflict w files recs → (acquire_file_locks w files recs).1.1 = true) := by
  constructor
  · intro h
    rw [acquire_conflict_eq w files recs h]
    exact ⟨rfl, rfl, fun o f => mem_conflictsFor w files recs o f⟩
  · intro h
    rw [acquire_ok_eq w files recs h]

/-- Witness for the conflict theorem: worker 2 requests the path
worker 1 already claims (and, for the success half, worker 1 re-acquires
its own path). -/
theorem acquire_conflicts_exact_witness :
    (acquire_file_locks 2 [['a', '.', 'p', 'y']]
        [(1, joinNl [['a', '.', 'p', 'y']])]).1.1 = false ∧
    (acquire_file_locks 2 [['a', '.', 'p', 'y']]
        [(1, joinNl [['a', '.', 'p', 'y']])]).2 = [(1, joinNl [['a', '.', 'p', 'y']])] ∧
    (1, ['a', '.', 'p', 'y']) ∈ (acquire_file_locks 2 [['a', '.', 'p', 'y']]
        [(1, joinNl [['a', '.', 'p', 'y']])]).1.2 ∧
    (acquire_file_locks 1 [['a', '.', 'p', 'y']]
        [(1, joinNl [['a', '.', 'p', 'y']])]).1.1 = true := by
  have h := (acquire_conflicts_exact [(1, joinNl [['a', '.', 'p', 'y']])] 2
    [['a', '.', 'p', 'y']]).1 (by decide)
  have hok := (acquire_conflicts_exact [(1, joinNl [['a', '.', 'p', 'y']])] 1
    [['a', '.', 'p', 'y']]).2 (by decide)
  exact ⟨h.1, h.2.1, (h.2.2 1 ['a', '.', 'p', 'y']).mpr (by decide), hok⟩

/-- Claim C8 (confirmed): a second successful acquire by the same worker
replaces its claim wholesale — afterwards the worker's record is
exactly the newline-join of the new file list, which parses back to
exactly that list — so a path from the first list that is absent from
the second is unclaimed, and a subsequent acquire of it by another
worker succeeds with no conflict.  The cleanliness hypotheses say the
new paths are nonempty, newline-free and not whitespace-trimmed, which
every ordinary path satisfies. -/
theorem acquire_replaces_wholesale (recs : LockRecords) (w w2 : Nat)
    (fs1 fs2 : List PyStr) (p : PyStr)
    (hclean2 : ∀ f ∈ fs2, cleanPath f = true) (hfs2 : fs2 ≠ [])
    (_hw2 : w2 ≠ w) (hp1 : p ∈ fs1) (hp2 : p ∉ fs2)
    (h1 : (acquire_file_locks w fs1 recs).1.1 = true)
    (h2 : (acquire_file_locks w fs2 (acquire_file_locks w fs1 recs).2).1.1 = true) :
    ((acquire_file_locks w fs2 (acquire_file_locks w fs1 recs).2).2.lookup w
        = some (joinNl fs2)) ∧
    lockedFilesOf (joinNl fs2) = fs2 ∧
    (acquire_file_locks w2 [p]
      (acquire_file_locks w fs2 (acquire_file_locks w fs1 recs).2).2).1.1 = true := by
  have hnc1 : ¬ HasConflict w fs1 recs := (acquire_ok_iff w fs1 recs).mp h1
  have hst1 : (acquire_file_locks w fs1 recs).2 = assocSet recs w (joinNl fs1) := by
    rw [acquire_ok_eq w fs1 recs hnc1]
  have hnc2 : ¬ HasConflict w fs2 (acquire_file_locks w fs1 recs).2 :=
    (acquire_ok_iff _ _ _).mp h2
  have hst2 : (acquire_file_locks w fs2 (acquire_file_locks w fs1 recs).2).2
      = assocSet (assocSet recs w (joinNl fs1)) w (joinNl fs2) := by
    rw [acquire_ok_eq _ _ _ hnc2, hst1]
  have hround : lockedFilesOf (joinNl fs2) = fs2 := lockedFilesOf_joinNl fs2 hfs2 hclean2
  refine ⟨?_, hround, ?_⟩
  · rw [hst2]
    exact lookup_assocSet_self _ _ _
  · rw [acquire_ok_iff, hst2]
    rintro ⟨e, he, hne, f, hf, hm⟩
    have hfp : f = p := by simpa using hf
    subst hfp
    rcases mem_assocSet he with rfl | ⟨he2, hne2⟩
    · exact hp2 (by simpa [hround] using hm)
    · rcases mem_assocSet he2 with rfl | ⟨he3, _⟩
      · exact hne2 rfl
      · exact hnc1 ⟨e, he3, hne2, f, hp1, hm⟩

/-- Witness for wholesale replacement: worker 1 acquires a.py and b.py,
then c.py alone; worker 2 then acquires a.py successfully. -/
theorem acquire_replaces_wholesale_witness :
    ((acquire_file_locks 1 [['c', '.', 'p', 'y']]
        (acquire_file_locks 1 [['a', '.', 'p', 'y'], ['b', '.', 'p', 'y']] []).2).2.lookup 1
      = some (joinNl [['c', '.', 'p', 'y']])) ∧
    lockedFilesOf (joinNl [['c', '.', 'p', 'y']]) = [['c', '.', 'p', 'y']] ∧
    (acquire_file_locks 2 [['a', '.', 'p', 'y']]
      (acquire_file_locks 1 [['c', '.', 'p', 'y']]
        (acquire_file_locks 1 [['a', '.', 'p', 'y'], ['b', '.', 'p', 'y']] []).2).2).1.1
      = true :=
  acquire_replaces_wholesale [] 1 2 [['a', '.', 'p', 'y'], ['b', '.', 'p', 'y']]
    [['c', '.', 'p', 'y']] ['a', '.', 'p', 'y']
    (by decide) (by decide) (by decide) (by decide) (by decide) (by decide) (by decide)


/-- Counterexample to claim C9 as stated: the `done` command performs no
range check on the worker id — for worker id 7 in a session whose
worker count is 6, it succeeds and writes the worker-state record, the
result file, and the `worker-7-done` trigger, although the claim says
no such artifact is written for an out-of-range id. -/
theorem done_out_of_range_writes :
    (doneCmd (some 7) none [] none none ⟨6, [], [], []⟩).1 = true ∧
    ((doneCmd (some 7) none [] none none ⟨6, [], [], []⟩).2.workers.lookup 7).isSome
      = true ∧
    workerDoneName 7 ∈ (doneCmd (some 7) none [] none none ⟨6, [], [], []⟩).2.triggers ∧
    ((doneCmd (some 7) none [] none none ⟨6, [], [], []⟩).2.results.lookup 7).isSome
      = true := by
  decide

/-- Claim C9 (amended): `send` surfaces an out-of-range worker id, and
then an empty (whitespace-only) message, before any write — the session
state is returned unchanged; `done` validates only the presence of a
worker id: a missing id is surfaced with no write, but a supplied id is
never range-checked, so the state record, result file and done trigger
are written for every id, in range or not; and an oversized message in
`send` is surfaced only after the stale-trigger clear and the
worker-state write have already happened. -/
theorem send_done_validation :
    (∀ (st : Session) (wid : Int) (msg proto phase : String),
      wid < 0 ∨ (st.numWorkers : Int) ≤ wid →
      sendCmd wid msg proto phase st = (CmdOutcome.invalidWorker, st)) ∧
    (∀ (st : Session) (wid : Int) (msg proto phase : String),
      ¬(wid < 0 ∨ (st.numWorkers : Int) ≤ wid) →
      strEmpty (pyStripStr msg) = true →
      sendCmd wid msg proto phase st = (CmdOutcome.emptyMessage, st)) ∧
    (∀ (st : Session) (b : Option String) (f : List String) (e r : Option String),
      doneCmd none b f e r st = (false, st)) ∧
    (∀ (st : Session) (w : Nat) (b : Option String) (f : List String)
        (e r : Option String),
      (doneCmd (some w) b f e r st).1 = true ∧
      ((doneCmd (some w) b f e r st).2.workers.lookup w).isSome = true ∧
      workerDoneName w ∈ (doneCmd (some w) b f e r st).2.triggers ∧
      ((doneCmd (some w) b f e r st).2.results.lookup w).isSome = true) ∧
    (∀ (st : Session) (wid : Int) (msg proto phase : String),
      ¬(wid < 0 ∨ (st.numWorkers : Int) ≤ wid) →
      strEmpty (pyStripStr msg) = false →
      MAX_MESSAGE_LENGTH < (build_worker_preamble wid.toNat proto phase msg).length →
      (sendCmd wid msg proto phase st).1 = CmdOutcome.messageTooLong ∧
      ((sendCmd wid msg proto phase st).2.workers.lookup wid.toNat).isSome = true) := by
  refine ⟨?_, ?_, ?_, ?_, ?_⟩
  · intro st wid msg proto phase h
    have hcond : (decide (wid < 0) || decide ((st.numWorkers : Int) ≤ wid)) = true := by
      rcases h with h | h
      · simp [h]
      · simp [h]
    simp [sendCmd, hcond]
  · intro st wid msg proto phase hr he
    rw [not_or] at hr
    have hcond : (decide (wid < 0) || decide ((st.numWorkers : Int) ≤ wid)) = false := by
      simp [hr.1, hr.2]
    simp [sendCmd, hcond, he]
  · intro st b f e r
    rfl
  · intro st w b f e r
    refine ⟨rfl, ?_, ?_, ?_⟩
    · simp only [doneCmd, set_worker_state]
      rw [lookup_assocSet_self]
      rfl
    · simp only [doneCmd]
      exact check_preserves_triggers _ _ (mem_create_trigger_self _ _)
    · simp only [doneCmd]
      rw [lookup_assocSet_self]
      rfl
  · intro st wid msg proto phase hr he hlen
    rw [not_or] at hr
    have hcond : (decide (wid < 0) || decide ((st.numWorkers : Int) ≤ wid)) = false := by
      simp [hr.1, hr.2]
    have hd : decide (MAX_MESSAGE_LENGTH
        < (build_worker_preamble wid.toNat proto phase msg).length) = true :=
      decide_eq_true hlen
    constructor
    · simp [sendCmd, hcond, he, hd]
    · simp only [sendCmd, hcond, cond_false, he, hd, cond_true, set_worker_state]
      rw [lookup_assocSet_self]
      rfl

/-- Witness for the amended C9 theorem: the four validation shapes at a
six-worker session, and the oversized-message path with a message of
100001 characters, whose state write is visible despite the error. -/
theorem send_done_validation_witness :
    sendCmd 9 "x" "p" "q" ⟨6, [], [], []⟩ = (CmdOutcome.invalidWorker, ⟨6, [], [], []⟩) ∧
    sendCmd 0 "  " "p" "q" ⟨6, [], [], []⟩ = (CmdOutcome.emptyMessage, ⟨6, [], [], []⟩) ∧
    doneCmd none none [] none none ⟨6, [], [], []⟩ = (false, ⟨6, [], [], []⟩) ∧
    workerDoneName 7 ∈ (doneCmd (some 7) none [] none none ⟨6, [], [], []⟩).2.triggers ∧
    (sendCmd 0 (String.mk (List.replicate 100001 'a')) "p" "q" ⟨6, [], [], []⟩).1
      = CmdOutcome.messageTooLong ∧
    ((sendCmd 0 (String.mk (List.replicate 100001 'a')) "p" "q"
        ⟨6, [], [], []⟩).2.workers.lookup 0).isSome = true := by
  have hrepl : List.replicate 100001 'a' = 'a' :: List.replicate 100000 'a' :=
    List.replicate_succ 'a' 100000
  have hbig : pyStrip (List.replicate 100001 'a') = List.replicate 100001 'a' := by
    apply pyStrip_eq_self
    · rw [hrepl]
      exact List.cons_ne_nil _ _
    · rw [hrepl]
      rfl
    · rw [List.reverse_replicate, hrepl]
      rfl
  have hdatamk : (String.mk (List.replicate 100001 'a')).data
      = List.replicate 100001 'a' := rfl
  have hstr : pyStripStr (String.mk (List.replicate 100001 'a'))
      = String.mk (List.replicate 100001 'a') := by
    unfold pyStripStr
    rw [hdatamk, hbig]
  have hempty : strEmpty (pyStripStr (String.mk (List.replicate 100001 'a'))) = false := by
    rw [hstr]
    unfold strEmpty
    rw [hdatamk, hrepl]
    exact List.isEmpty_cons
  have hlen : MAX_MESSAGE_LENGTH
      < (build_worker_preamble (0 : Int).toNat "p" "q"
          (String.mk (List.replicate 100001 'a'))).length := by
    have hm : (String.mk (List.replicate 100001 'a')).length = 100001 := by
      rw [String.length_mk, List.length_replicate]
    simp only [build_worker_preamble, String.length_append, hm]
    decide
  have h5 := send_done_validation.2.2.2.2 ⟨6, [], [], []⟩ 0
    (String.mk (List.replicate 100001 'a')) "p" "q" (by decide) hempty hlen
  refine ⟨?_, ?_, ?_, ?_, h5.1, h5.2⟩
  · exact send_done_validation.1 ⟨6, [], [], []⟩ 9 "x" "p" "q" (Or.inr (by decide))
  · exact send_done_validation.2.1 ⟨6, [], [], []⟩ 0 "  " "p" "q" (by decide) (by decide)
  · exact send_done_validation.2.2.1 ⟨6, [], [], []⟩ none [] none none
  · exact (send_done_validation.2.2.2.1 ⟨6, [], [], []⟩ 7 none [] none none).2.2.1

end HyperClaude
